import Mathlib

/-!
Verification development for the AI-powered pull-request description
generator.  The TypeScript sources are shallowly embedded below:

* the Gemini generation orchestrator (`generateWithRetry`, the
  `createPullRequestDescription` flow with its MAX_TOKENS handling),
  from the Gemini helper variants;
* the token-limit configuration (`clampedMaxTokens` from the resolver /
  lower-bound helper variant, `rawMaxTokens` from the helper variant
  that reads the override without a floor);
* the title synthesizer of `pull-request-updater.ts`
  (`sanitizeTitle`, `parseConventionalCommit`,
  `chooseScopeFromFilesWithMonorepo`, `toImperative`,
  `inferCommitTypeScored`, `formatConventionalCommitTitle`).

Strings are modelled as `List Char`; JavaScript regular-expression
tests are translated into explicit executable scans over the character
list (ASCII semantics, which covers all inputs appearing in the spec
and in the theorems below).  Provider calls are modelled by a script
`Nat → GenOutcome` giving the outcome of the n-th `generateContent`
call of a run.
-/

namespace PRDesc

/-- Character-list strings, the base representation for the embedding. -/
abbrev Str := List Char

/-- ASCII whitespace recognised by the JavaScript `\s` class and `trim`. -/
def isWsChar (c : Char) : Bool :=
  c == ' ' || c == '\t' || c == '\n' || c == '\r' || c == '\x0b' || c == '\x0c'

/-- ASCII decimal digit. -/
def isAsciiDigit (c : Char) : Bool :=
  decide ('0' ≤ c) && decide (c ≤ '9')

/-- ASCII uppercase letter. -/
def isAsciiUpper (c : Char) : Bool :=
  decide ('A' ≤ c) && decide (c ≤ 'Z')

/-- ASCII lowercase letter. -/
def isAsciiLower (c : Char) : Bool :=
  decide ('a' ≤ c) && decide (c ≤ 'z')

/-- ASCII letter. -/
def isAsciiLetter (c : Char) : Bool :=
  isAsciiUpper c || isAsciiLower c

/-- ASCII lowercasing of one character (JS `toLowerCase` on ASCII input). -/
def lowerC (c : Char) : Char :=
  if isAsciiUpper c then Char.ofNat (c.toNat + 32) else c

/-- ASCII lowercasing of a string. -/
def lowerS (s : Str) : Str := s.map lowerC

/-- Drop leading whitespace. -/
def dropWs (s : Str) : Str := s.dropWhile isWsChar

/-- Drop trailing whitespace. -/
def rdropWs (s : Str) : Str := ((s.reverse).dropWhile isWsChar).reverse

/-- JS `String.prototype.trim` (ASCII whitespace). -/
def jsTrim (s : Str) : Str := rdropWs (dropWs s)

/-- Scanner for `replace(/\s+/g, ' ')`: the flag records whether the
previous character belonged to a whitespace run (whose single `' '` has
already been emitted). -/
def collapseWsAux (prevWs : Bool) : Str → Str
  | [] => []
  | c :: cs =>
    if isWsChar c then
      if prevWs then collapseWsAux true cs
      else ' ' :: collapseWsAux true cs
    else c :: collapseWsAux false cs

/-- JS `replace(/\s+/g, ' ')`: each maximal whitespace run becomes one space. -/
def collapseWs (s : Str) : Str := collapseWsAux false s

/-- Substring test (JS `String.prototype.includes` / unanchored regex literal). -/
def containsS (pat : Str) : Str → Bool
  | [] => pat.isPrefixOf ([] : Str)
  | s@(_ :: rest) => pat.isPrefixOf s || containsS pat rest

/-- JS `\w` word-constituent character. -/
def isWordChar (c : Char) : Bool :=
  isAsciiLetter c || isAsciiDigit c || c == '_'

/-- The pattern `w` occurs at the head of `s` with `\b` boundaries on both
sides, `prev` being the character just before the current position. -/
def wordAtBoundary (w : Str) (prev : Option Char) (s : Str) : Bool :=
  w.isPrefixOf s &&
  (match prev with
   | none => true
   | some c => !isWordChar c) &&
  (match s.drop w.length with
   | [] => true
   | c :: _ => !isWordChar c)

/-- Scan for a `\b w \b` occurrence anywhere in the string. -/
def containsWordAux (w : Str) (prev : Option Char) : Str → Bool
  | [] => wordAtBoundary w prev []
  | s@(c :: rest) => wordAtBoundary w prev s || containsWordAux w (some c) rest

/-- JS regex `\b w \b` test. -/
def containsWord (w s : Str) : Bool := containsWordAux w none s

/-- Any of the given whole words occurs (alternation of `\b..\b` patterns). -/
def containsAnyWord (ws : List Str) (s : Str) : Bool :=
  ws.any (fun w => containsWord w s)

/-! ### Provider errors and retry classification (`generateWithRetry`) -/

/-- The fields of a thrown provider error that the orchestrator inspects. -/
structure JSError where
  status : Option Int
  message : Str
deriving DecidableEq

/-- `status === 429 || /\b429\b/.test(msg)`. -/
def is429 (e : JSError) : Bool :=
  e.status == some 429 || containsWord ("429".toList) e.message

/-- `status === 503 || /\b503\b/.test(msg) || /overload|unavailable|temporarily/i.test(msg)`. -/
def is503 (e : JSError) : Bool :=
  e.status == some 503 || containsWord ("503".toList) e.message ||
  containsS ("overload".toList) (lowerS e.message) ||
  containsS ("unavailable".toList) (lowerS e.message) ||
  containsS ("temporarily".toList) (lowerS e.message)

/-- A conversation turn of a Gemini request payload. -/
structure Turn where
  role : Str
  text : Str
deriving DecidableEq

/-- The request payload fields the orchestrator constructs. -/
structure Payload where
  contents : List Turn
  temperature : Int
  maxOutputTokens : Nat
deriving DecidableEq

/-- A Gemini response: the candidate parts' optional `text` fields and the
finish reason; `concatCandidatePartsText` below derives the visible text. -/
structure GenResp where
  partsText : List (Option Str)
  finishReason : Option Str
deriving DecidableEq

/-- `concatCandidatePartsText`: join all string parts and trim. -/
def concatCandidatePartsText (r : GenResp) : Str :=
  jsTrim (r.partsText.filterMap id).flatten

/-- Outcome of one `generateContent` call. -/
inductive GenOutcome
  | ok (r : GenResp)
  | err (e : JSError)
deriving DecidableEq

/-- How a `generateWithRetry` run can fail: rethrowing a provider error, or
falling out of the attempt loop (the dedicated exhausted-retries error). -/
inductive RetryFailure
  | raised (e : JSError)
  | exhaustedLoop
deriving DecidableEq

/-- Result of a `generateWithRetry` run. -/
inductive RRes
  | ok (r : GenResp) (modelUsed : Str)
  | fail (f : RetryFailure)
deriving DecidableEq

/-- Mutable loop state of `generateWithRetry`: current ladder index and the
consecutive-503 counter. -/
structure RetrySt where
  idx : Nat
  consec : Nat
deriving DecidableEq

/-- The fixed fallback ladder of the Gemini helper. -/
def geminiLadder : List Str :=
  ["gemini-2.5-pro".toList, "gemini-2.5-flash".toList, "gemini-1.5-flash".toList]

/-- `[initialModel, ...ladder.filter(m => m !== initialModel)]`. -/
def orderedLadder (initialModel : Str) : List Str :=
  initialModel :: geminiLadder.filter (fun m => m != initialModel)

/-- The failure-handling state update of one retryable attempt:
`if (is503) consecutive503++; else consecutive503 = 0;` followed by the
model switch `if (is503 && consecutive503 > 10 && idx < ordered.length - 1)`.
The counter is carried over unchanged by the switch. -/
def advanceState (ordered : List Str) (e503 : Bool) (st : RetrySt) : RetrySt :=
  let consecNew := if e503 then st.consec + 1 else 0
  if e503 = true ∧ 10 < consecNew ∧ st.idx < ordered.length - 1 then
    ⟨st.idx + 1, consecNew⟩
  else
    ⟨st.idx, consecNew⟩

/-- Attempt ceiling of the retry loop. -/
def maxAttempts : Nat := 100

/-- Result and trace of a retry run: the outcome plus the list of
`(attempt, model)` calls that were issued. -/
structure RunOut where
  res : RRes
  calls : List (Nat × Str)
deriving DecidableEq

/-- The attempt loop of `generateWithRetry`.  `fuel` counts the remaining
iterations (`attempt + fuel = maxAttempts + 1` at every call); when it hits
zero the loop has finished without returning and the dedicated
exhausted-retries error is thrown. -/
def retryGo (script : Nat → GenOutcome) (ordered : List Str) :
    Nat → Nat → RetrySt → RunOut
  | _, 0, _ => ⟨.fail .exhaustedLoop, []⟩
  | attempt, fuel + 1, st =>
    let model := ordered.getD st.idx []
    match script attempt with
    | .ok r => ⟨.ok r model, [(attempt, model)]⟩
    | .err e =>
      if is429 e || is503 e then
        let st2 := advanceState ordered (is503 e) st
        if maxAttempts ≤ attempt then ⟨.fail (.raised e), [(attempt, model)]⟩
        else
          let rest := retryGo script ordered (attempt + 1) fuel st2
          ⟨rest.res, (attempt, model) :: rest.calls⟩
      else ⟨.fail (.raised e), [(attempt, model)]⟩

/-- `generateWithRetry(payload, initialModel)`: run the attempt loop from
attempt 1 with a fresh state. -/
def generateWithRetry (script : Nat → GenOutcome) (initialModel : Str) : RunOut :=
  retryGo script (orderedLadder initialModel) 1 maxAttempts ⟨0, 0⟩

/-! ### Token-limit configuration -/

/-- Numeric value of a digit run. -/
def digitsVal (ds : Str) : Nat :=
  ds.foldl (fun a c => a * 10 + (c.toNat - 48)) 0

/-- The digit-run head of a string, if nonempty. -/
def parseDigits (r : Str) : Option Nat :=
  let ds := r.takeWhile isAsciiDigit
  if ds = [] then none else some (digitsVal ds)

/-- JS `Number.parseInt(s, 10)`: skip leading whitespace, optional sign,
then a digit run (trailing garbage ignored); `none` models `NaN`. -/
def parseIntJS (s : Str) : Option Int :=
  match dropWs s with
  | '-' :: r => (parseDigits r).map (fun n => -(n : Int))
  | '+' :: r => (parseDigits r).map (fun n => (n : Int))
  | r => (parseDigits r).map (fun n => (n : Int))

/-- The clamped `maxOutputTokens` computation
`Number.isFinite(v) && v > 0 ? Math.max(768, v) : dflt` shared by the
resolver (`dflt = 1536`) and the lower-bound Gemini helper variant
(`dflt = 1024`); `env` is the raw `MAX_OUTPUT_TOKENS` value. -/
def clampedMaxTokens (dflt : Nat) (env : Option Str) : Nat :=
  match parseIntJS (env.getD []) with
  | some v => if 0 < v then max 768 v.toNat else dflt
  | none => dflt

/-- The unclamped computation
`Number.isFinite(v) && v > 0 ? v : 2048` of the Gemini helper variant in
`src/ai/gemini-ai-helper.ts`, which applies no 768 floor. -/
def rawMaxTokens (env : Option Str) : Nat :=
  match parseIntJS (env.getD []) with
  | some v => if 0 < v then v.toNat else 2048
  | none => 2048

/-! ### The `createPullRequestDescription` flow of the Gemini helper -/

/-- Default model name of the helper. -/
def defaultGeminiModel : Str := "gemini-2.5-flash".toList

/-- `this.model?.trim() || default`. -/
def resolveModelName (m : Option Str) : Str :=
  match m with
  | some s => if jsTrim s = [] then defaultGeminiModel else jsTrim s
  | none => defaultGeminiModel

/-- The system instruction text. -/
def systemTextStr : Str :=
  "You are very good at reviewing code and can generate pull request descriptions.".toList

/-- The continuation instruction sent after a truncated response. -/
def contInstruction : Str :=
  "Continue from where you left off. Do not repeat earlier content. Keep the same structure and style.".toList

/-- `name.toLowerCase().startsWith('gemini-2')`. -/
def supportsSystemInstruction (name : Str) : Bool :=
  ("gemini-2".toList).isPrefixOf (lowerS name)

/-- A user turn. -/
def mkUserTurn (t : Str) : Turn := ⟨"user".toList, t⟩

/-- A model turn. -/
def mkModelTurn (t : Str) : Turn := ⟨"model".toList, t⟩

/-- For models without system-instruction support the system text is
prepended to the prompt. -/
def promptWithSystem (modelName prompt : Str) : Str :=
  if supportsSystemInstruction modelName then prompt
  else systemTextStr ++ ('\n' :: '\n' :: prompt)

/-- Helper configuration: optional model override, the raw
`MAX_OUTPUT_TOKENS` environment value, and the sampling temperature. -/
structure HelperCfg where
  model : Option Str
  envMaxOutputTokens : Option Str
  temperature : Int

/-- The `maxOutputTokens` floor computation of the helper variant embedded
here (default 1024). -/
def initialMaxTokens (cfg : HelperCfg) : Nat :=
  clampedMaxTokens 1024 cfg.envMaxOutputTokens

/-- The first request payload. -/
def initialPayload (cfg : HelperCfg) (prompt : Str) : Payload :=
  ⟨[mkUserTurn (promptWithSystem (resolveModelName cfg.model) prompt)],
   cfg.temperature, initialMaxTokens cfg⟩

/-- `Math.ceil(initialMaxOutputTokens * 1.5)` on a natural number. -/
def bumpTokens (n : Nat) : Nat := (3 * n + 1) / 2

/-- The bumped-token retry payload issued after `MAX_TOKENS` with empty text. -/
def bumpedPayload (cfg : HelperCfg) (prompt : Str) : Payload :=
  ⟨[mkUserTurn (promptWithSystem (resolveModelName cfg.model) prompt)],
   cfg.temperature, bumpTokens (initialMaxTokens cfg)⟩

/-- The continuation payload issued after `MAX_TOKENS` with nonempty text:
prompt as a user turn, the partial output as a model turn, and the
continuation instruction. -/
def contPayloadOf (cfg : HelperCfg) (prompt text : Str) : Payload :=
  ⟨[mkUserTurn prompt, mkModelTurn text, mkUserTurn contInstruction],
   cfg.temperature, initialMaxTokens cfg⟩

/-- A request as seen by the provider layer: target model plus payload. -/
structure Request where
  model : Str
  payload : Payload
deriving DecidableEq

/-- Result of the description flow: generated text, or the wrapped error
message rethrown by the outer catch. -/
inductive DescResult
  | ok (text : Str)
  | fail (msg : Str)
deriving DecidableEq

/-- Result plus the trace of provider requests issued during the run. -/
structure CPRDOut where
  result : DescResult
  requests : List Request
deriving DecidableEq

/-- The message of the error a `generateWithRetry` failure rethrows. -/
def failureMessage (f : RetryFailure) : Str :=
  match f with
  | .raised e => e.message
  | .exhaustedLoop => "Exhausted retry attempts for Gemini generateContent".toList

/-- The outer catch wraps every thrown message. -/
def geminiWrap (m : Str) : Str := "Gemini API Error: ".toList ++ m

/-- The finish reason that triggers the truncation handling. -/
def maxTokensReason : Str := "MAX_TOKENS".toList

/-- `createPullRequestDescription` of the Gemini helper: one retried initial
generation, then the single-shot MAX_TOKENS handling (bumped-token retry on
empty text, one continuation on nonempty text), both sent directly to the
model instance that served the successful response.  The n-th
`generateContent` call of the run receives outcome `script n`. -/
def createPullRequestDescription (cfg : HelperCfg) (script : Nat → GenOutcome)
    (prompt : Str) : CPRDOut :=
  let modelName := resolveModelName cfg.model
  let run := generateWithRetry script modelName
  let baseReqs := run.calls.map (fun c => Request.mk c.2 (initialPayload cfg prompt))
  match run.res with
  | .fail f => ⟨.fail (geminiWrap (failureMessage f)), baseReqs⟩
  | .ok resp modelUsed =>
    let text := concatCandidatePartsText resp
    if resp.finishReason = some maxTokensReason then
      if text = [] ∨ jsTrim text = [] then
        match script (run.calls.length + 1) with
        | .err e =>
          ⟨.fail (geminiWrap e.message), baseReqs ++ [⟨modelUsed, bumpedPayload cfg prompt⟩]⟩
        | .ok r2 =>
          ⟨.ok (concatCandidatePartsText r2), baseReqs ++ [⟨modelUsed, bumpedPayload cfg prompt⟩]⟩
      else
        match script (run.calls.length + 1) with
        | .err e =>
          ⟨.fail (geminiWrap e.message), baseReqs ++ [⟨modelUsed, contPayloadOf cfg prompt text⟩]⟩
        | .ok r2 =>
          ⟨.ok (jsTrim (text ++ concatCandidatePartsText r2)),
           baseReqs ++ [⟨modelUsed, contPayloadOf cfg prompt text⟩]⟩
    else ⟨.ok text, baseReqs⟩

/-! ### Title sanitization (`sanitizeTitle`) -/

/-- Trailing sentence punctuation stripped by `/[\.!?]+$/`. -/
def isEndPunct (c : Char) : Bool := c == '.' || c == '!' || c == '?'

/-- `replace(/[\.!?]+$/g, '')`. -/
def stripTrailingPunct (s : Str) : Str := (s.reverse.dropWhile isEndPunct).reverse

/-- Quote characters stripped by `/^[`'"]+|[`'"]+$/g`. -/
def isQuoteChar (c : Char) : Bool := c == '`' || c == '\'' || c == '"'

/-- `replace(/^[`'"]+|[`'"]+$/g, '')`. -/
def stripQuotesEnds (s : Str) : Str :=
  ((s.dropWhile isQuoteChar).reverse.dropWhile isQuoteChar).reverse

/-- `replace(/^#+\s*/, '')`: strip a leading markdown heading marker. -/
def stripHeading (s : Str) : Str :=
  match s with
  | '#' :: _ => (s.dropWhile (fun c => c == '#')).dropWhile isWsChar
  | _ => s

/-- `sanitizeTitle`: strip heading and surrounding quotes, trim, collapse
whitespace, strip trailing punctuation, then hard-cap at 72 characters. -/
def sanitizeTitle (t : Str) : Str :=
  let cleaned := stripTrailingPunct (collapseWs (jsTrim (stripQuotesEnds (stripHeading t))))
  if 72 < cleaned.length then jsTrim (cleaned.take 72) else cleaned

/-! ### Conventional-commit parsing (`parseConventionalCommit`) -/

/-- Case-insensitive prefix match against an (already lowercase) pattern;
returns the remaining characters on success. -/
def matchPfxCI : Str → Str → Option Str
  | [], s => some s
  | _ :: _, [] => none
  | p :: ps, c :: cs => if lowerC c == p then matchPfxCI ps cs else none

/-- Scan `[^)]+\)`: the characters before the first `)` and the rest after
it, or `none` when no `)` occurs. -/
def scanScope : Str → Option (Str × Str)
  | [] => none
  | c :: r =>
    if c == ')' then some ([], r)
    else (scanScope r).map (fun p => (c :: p.1, p.2))

/-- The `\s*(.+)$` part of the title regex succeeds on `rest` exactly when
`rest` is nonempty and the dot-matched tail contains no line terminator
(JS `.` does not match `\n`/`\r`). -/
def lineOk (rest : Str) : Bool :=
  match dropWs rest with
  | [] => !(rest.getLastD ' ' == '\n' || rest.getLastD ' ' == '\r')
  | t => !(t.any (fun c => c == '\n' || c == '\r'))

/-- Try one commit type `t` of the alternation against the title:
`^t(?:\(([^)]+)\))?:\s*(.+)$` with `t` lowercase and matching
case-insensitively; on success the trimmed capture is the subject. -/
def attemptType (t : Str) (title : Str) : Option (Str × Option Str × Str) :=
  match matchPfxCI t title with
  | none => none
  | some r =>
    let withScope : Option (Str × Option Str × Str) :=
      match r with
      | '(' :: r1 =>
        match scanScope r1 with
        | some (inner, r2) =>
          if inner = [] then none
          else
            match r2 with
            | ':' :: rest =>
              if !rest.isEmpty && lineOk rest then some (t, some inner, jsTrim rest)
              else none
            | _ => none
        | none => none
      | _ => none
    match withScope with
    | some v => some v
    | none =>
      match r with
      | ':' :: rest =>
        if !rest.isEmpty && lineOk rest then some (t, none, jsTrim rest) else none
      | _ => none

/-- The fixed commit-type vocabulary, in the alternation order of the regex. -/
def ctypes : List Str :=
  ["feat".toList, "fix".toList, "docs".toList, "style".toList, "refactor".toList,
   "perf".toList, "test".toList, "build".toList, "ci".toList, "chore".toList]

/-- Result of `parseConventionalCommit`. -/
structure ParsedTitle where
  type : Option Str
  scope : Option Str
  subject : Str
deriving DecidableEq

/-- `parseConventionalCommit`: match
`^(feat|fix|docs|style|refactor|perf|test|build|ci|chore)(?:\(([^)]+)\))?:\s*(.+)$/i`;
on failure the whole trimmed title is the subject. -/
def parseConventionalCommit (title : Str) : ParsedTitle :=
  match ctypes.findSome? (fun t => attemptType t title) with
  | some (ty, sc, subj) => ⟨some ty, sc, subj⟩
  | none => ⟨none, none, jsTrim title⟩

/-! ### Scope inference (`chooseScopeFromFilesWithMonorepo`) -/

/-- Split a path on `/` (segments, with empty segments dropped afterwards). -/
def splitSlashAux (acc : Str) : Str → List Str
  | [] => [acc.reverse]
  | '/' :: r => acc.reverse :: splitSlashAux [] r
  | c :: r => splitSlashAux (c :: acc) r

/-- `f.split('/').filter(Boolean)`. -/
def pathParts (f : Str) : List Str :=
  (splitSlashAux [] f).filter (fun p => !p.isEmpty)

/-- The recognised top-level area directory names. -/
def areaSegs : List Str :=
  ["backend".toList, "frontend".toList, "server".toList, "client".toList,
   "api".toList, "web".toList, "app".toList]

/-- The candidate scope key contributed by one changed file, mirroring the
per-file branch chain of the scope chooser. -/
def scopeKeyOf (f : Str) : Option Str :=
  match pathParts f with
  | [] => none
  | [x] => if x == (".github".toList) then some ("ci".toList) else some ("root".toList)
  | x :: y :: _ =>
    if x == (".github".toList) then some ("ci".toList)
    else if x == ("apps".toList) then some y
    else if x == ("packages".toList) then some y
    else if areaSegs.contains x then some x
    else if x == ("src".toList) then some y
    else some x

/-- Increment a key in the insertion-ordered candidate map. -/
def bumpKey (cands : List (Str × Nat)) (k : Str) : List (Str × Nat) :=
  match cands with
  | [] => [(k, 1)]
  | (k0, n) :: rest => if k0 == k then (k0, n + 1) :: rest else (k0, n) :: bumpKey rest k

/-- Build the scope-candidate counts from the changed files. -/
def buildCandidates (files : List Str) : List (Str × Nat) :=
  files.foldl (fun acc f =>
    match scopeKeyOf f with
    | some k => bumpKey acc k
    | none => acc) []

/-- The first strictly-best entry (`v > bestCount` keeps the earlier key on
ties), as in the `Object.entries` loop. -/
def bestOf (cands : List (Str × Nat)) : Option (Str × Nat) :=
  cands.foldl (fun b kv =>
    match b with
    | none => some kv
    | some b0 => if b0.2 < kv.2 then some kv else some b0) none

/-- `w` occurs at the head of `s` followed by `/` or the end of the string. -/
def segBoundary (w s : Str) : Bool :=
  w.isPrefixOf s &&
  (match s.drop w.length with
   | [] => true
   | c :: _ => c == '/')

/-- Scan for `/(^|\/)w(\/|$)/`: `atOk` records whether the current position
is the start of the string or just after a `/`. -/
def hasSegmentAux (w : Str) : Bool → Str → Bool
  | atOk, [] => atOk && segBoundary w []
  | atOk, s@(c :: rest) => (atOk && segBoundary w s) || hasSegmentAux w (c == '/') rest

/-- `/(^|\/)w(\/|$)/.test(f)`. -/
def hasSegment (w f : Str) : Bool := hasSegmentAux w true f

/-- `/(^|\/)name$/.test(f)`: the path is the file `name` or ends with
`/name`. -/
def endsAsFile (name f : Str) : Bool :=
  f == name || ('/' :: name).isSuffixOf f

/-- `chooseScopeFromFilesWithMonorepo`: candidate scoring by leading path
segment plus the monorepo overrides (apps+packages or backend+frontend
conflicts, workspace manifest files, weak coverage, too many groups). -/
def chooseScopeFromFilesWithMonorepo (files : List Str) : Option Str :=
  if files.isEmpty then none
  else
    let hasApps := files.any (fun f => ("apps/".toList).isPrefixOf f)
    let hasPackages := files.any (fun f => ("packages/".toList).isPrefixOf f)
    let hasBackend := files.any (hasSegment ("backend".toList))
    let hasFrontend := files.any (hasSegment ("frontend".toList))
    let hasMonorepoFiles := files.any (fun f =>
      endsAsFile ("pnpm-workspace.yaml".toList) f ||
      endsAsFile ("pnpm-workspace.yml".toList) f ||
      endsAsFile ("turbo.json".toList) f)
    let cands := buildCandidates files
    match bestOf cands with
    | none => none
    | some (best, bestCount) =>
      let manyAreas := decide (3 < cands.length) || (hasApps && hasPackages) ||
        (hasBackend && hasFrontend)
      if decide (2 * bestCount < files.length) || manyAreas || hasMonorepoFiles then
        some ("monorepo".toList)
      else if best == ("root".toList) then some ("repo".toList)
      else some best

/-! ### Imperative-mood rewrite (`toImperative`) -/

/-- `[\w'-]`: the characters allowed after the leading letter of the word
matched by `/(^|:\s*|\()([A-Za-z][\w'-]*)/`. -/
def isWordTailChar (c : Char) : Bool :=
  isWordChar c || c == '\'' || c == '-'

/-- The `[A-Za-z][\w'-]*` word starting at the current position, if any. -/
def wordFrom : Str → Option Str
  | [] => none
  | c :: cs => if isAsciiLetter c then some (c :: cs.takeWhile isWordTailChar) else none

/-- The three alternatives `^`, `:\s*` and `\(` of the word regex at the
current position; returns the offset from the position to the word start
together with the word. -/
def altMatch (atStart : Bool) (s : Str) : Option (Nat × Str) :=
  (if atStart then (wordFrom s).map (fun w => (0, w)) else none) <|>
  (match s with
   | ':' :: r =>
     let sp := r.takeWhile isWsChar
     (wordFrom (r.drop sp.length)).map (fun w => (1 + sp.length, w))
   | _ => none) <|>
  (match s with
   | '(' :: r => (wordFrom r).map (fun w => (1, w))
   | _ => none)

/-- Leftmost match of `/(^|:\s*|\()([A-Za-z][\w'-]*)/`: the absolute index of
the word start and the word itself. -/
def findWord : Nat → Str → Option (Nat × Str)
  | _, [] => none
  | i, s@(_ :: rest) =>
    match altMatch (i == 0) s with
    | some (off, w) => some (i + off, w)
    | none => findWord (i + 1) rest

/-- One entry of the fixed lemma table. -/
def lemmaPair (a b : String) : Str × Str := (a.toList, b.toList)

/-- The fixed lemma table of `toImperative`. -/
def lemmaTable : List (Str × Str) :=
  [lemmaPair "adds" "add", lemmaPair "added" "add", lemmaPair "adding" "add",
   lemmaPair "fixes" "fix", lemmaPair "fixed" "fix", lemmaPair "fixing" "fix",
   lemmaPair "updates" "update", lemmaPair "updated" "update", lemmaPair "updating" "update",
   lemmaPair "removes" "remove", lemmaPair "removed" "remove", lemmaPair "removing" "remove",
   lemmaPair "improves" "improve", lemmaPair "improved" "improve", lemmaPair "improving" "improve",
   lemmaPair "introduces" "introduce", lemmaPair "introduced" "introduce",
   lemmaPair "introducing" "introduce",
   lemmaPair "refactors" "refactor", lemmaPair "refactored" "refactor",
   lemmaPair "refactoring" "refactor",
   lemmaPair "migrates" "migrate", lemmaPair "migrated" "migrate", lemmaPair "migrating" "migrate",
   lemmaPair "renames" "rename", lemmaPair "renamed" "rename", lemmaPair "renaming" "rename",
   lemmaPair "optimizes" "optimize", lemmaPair "optimized" "optimize",
   lemmaPair "optimizing" "optimize",
   lemmaPair "uses" "use", lemmaPair "used" "use", lemmaPair "using" "use",
   lemmaPair "ensures" "ensure", lemmaPair "ensured" "ensure", lemmaPair "ensuring" "ensure"]

/-- Replace the matched leading word by `lemmas[lower] || lower` (the
lowercased word when it is not in the table). -/
def rewriteWord (s : Str) : Str :=
  match findWord 0 s with
  | none => s
  | some (start, w) =>
    let lower := lowerS w
    let base := (lemmaTable.lookup lower).getD lower
    s.take start ++ base ++ s.drop (start + w.length)

/-- `toImperative`: normalize (trim, collapse whitespace, strip trailing
punctuation) and rewrite the leading verb via the lemma table. -/
def toImperative (subject : Str) : Str :=
  if subject = [] then subject
  else rewriteWord (stripTrailingPunct (collapseWs (jsTrim subject)))

/-! ### Commit-type inference (`inferCommitTypeScored`) -/

/-- `/(^docs\/|\.md$|README\.[^/]*$)/i` - the README alternative: a
case-insensitive `readme.` occurrence with no `/` after it. -/
def readmeScan : Str → Bool
  | [] => false
  | s@(_ :: rest) =>
    (("readme.".toList).isPrefixOf s && !((s.drop 7).contains '/')) || readmeScan rest

/-- Documentation file test. -/
def isDocsFile (f : Str) : Bool :=
  ("docs/".toList).isPrefixOf (lowerS f) || (".md".toList).isSuffixOf (lowerS f) ||
  readmeScan (lowerS f)

/-- Test file test. -/
def isTestFile (f : Str) : Bool :=
  containsS (".test.".toList) (lowerS f) || containsS (".spec.".toList) (lowerS f) ||
  containsS ("__tests__/".toList) (lowerS f) || ("tests/".toList).isPrefixOf (lowerS f)

/-- CI configuration file test. -/
def isCiFile (f : Str) : Bool :=
  (".github/".toList).isPrefixOf (lowerS f) || (".circleci/".toList).isPrefixOf (lowerS f) ||
  ("gitlab-ci.yml".toList).isSuffixOf (lowerS f) ||
  ("azure-pipelines.yml".toList).isSuffixOf (lowerS f)

/-- Build configuration file test. -/
def isBuildFile (f : Str) : Bool :=
  lowerS f == ("dockerfile".toList) || containsS ("docker-compose".toList) (lowerS f) ||
  lowerS f == ("turbo.json".toList) || lowerS f == ("pnpm-workspace.yaml".toList) ||
  lowerS f == ("pnpm-workspace.yml".toList) || lowerS f == ("package.json".toList) ||
  ("vite.config".toList).isPrefixOf (lowerS f) ||
  ("webpack.config".toList).isPrefixOf (lowerS f) ||
  ("rollup.config".toList).isPrefixOf (lowerS f) ||
  lowerS f == ("tsconfig.json".toList) || containsS ("babel".toList) (lowerS f) ||
  lowerS f == ("makefile".toList)

/-- Stylesheet file test. -/
def isStyleFile (f : Str) : Bool :=
  (".css".toList).isSuffixOf (lowerS f) || (".scss".toList).isSuffixOf (lowerS f) ||
  (".sass".toList).isSuffixOf (lowerS f) || (".less".toList).isSuffixOf (lowerS f)

/-- General source-code file test. -/
def isCodeFile (f : Str) : Bool :=
  [".ts".toList, ".tsx".toList, ".js".toList, ".jsx".toList, ".py".toList, ".go".toList,
   ".rb".toList, ".rs".toList, ".java".toList, ".php".toList].any
    (fun ext => ext.isSuffixOf (lowerS f))

/-- `/turbo\.json|pnpm-workspace\.ya?ml|\bmonorepo\b|\bturbo\b/` on the
(lowercased) diff-plus-title text. -/
def monorepoTextSignal (s : Str) : Bool :=
  containsS ("turbo.json".toList) s || containsS ("pnpm-workspace.yaml".toList) s ||
  containsS ("pnpm-workspace.yml".toList) s || containsWord ("monorepo".toList) s ||
  containsWord ("turbo".toList) s

/-- `/(^|\/)turbo\.json$|(^|\/)pnpm-workspace\.ya?ml$|^apps\//` on a file. -/
def monorepoFileSignal (f : Str) : Bool :=
  endsAsFile ("turbo.json".toList) f || endsAsFile ("pnpm-workspace.yaml".toList) f ||
  endsAsFile ("pnpm-workspace.yml".toList) f || ("apps/".toList).isPrefixOf f

/-- `\bfix(e[sd]|ing)?\b|\bbug\b|\berror\b|\bissue\b|\bcorrect\b`. -/
def fixKeywords (s : Str) : Bool :=
  containsAnyWord
    ["fix".toList, "fixes".toList, "fixed".toList, "fixing".toList,
     "bug".toList, "error".toList, "issue".toList, "correct".toList] s

/-- `\brefactor(ing|ed|s)?\b|\bcleanup\b|\brestructure\b|\brename\b`. -/
def refactorKeywords (s : Str) : Bool :=
  containsAnyWord
    ["refactor".toList, "refactoring".toList, "refactored".toList, "refactors".toList,
     "cleanup".toList, "restructure".toList, "rename".toList] s

/-- `\bperf(ormance)?\b|\boptimi[sz]e\b|\bfaster\b|\bspeed\b`. -/
def perfKeywords (s : Str) : Bool :=
  containsAnyWord
    ["perf".toList, "performance".toList, "optimize".toList, "optimise".toList,
     "faster".toList, "speed".toList] s

/-- The phrase `create mode` (with word boundaries). -/
def createModeStr : Str := "create mode".toList

/-- The phrase `new file mode` (with word boundaries). -/
def newFileModeStr : Str := "new file mode".toList

/-- Count non-overlapping matches of
`/\bcreate mode\b|\bnew file mode\b/g`, scanning left to right with a fuel
bound (the first argument) on the number of scanner steps. -/
def addedMarksGo : Nat → Option Char → Str → Nat
  | 0, _, _ => 0
  | _ + 1, _, [] => 0
  | fuel + 1, prev, c :: rest =>
    if wordAtBoundary createModeStr prev (c :: rest) then
      1 + addedMarksGo fuel (some 'e') ((c :: rest).drop createModeStr.length)
    else if wordAtBoundary newFileModeStr prev (c :: rest) then
      1 + addedMarksGo fuel (some 'e') ((c :: rest).drop newFileModeStr.length)
    else addedMarksGo fuel (some c) rest

/-- Count of added-file markers in the diff text; every scanner step consumes
at least one character, so `d.length` steps always finish the scan. -/
def addedMarks (d : Str) : Nat := addedMarksGo d.length none d

/-- The per-category scores. -/
structure TypeScores where
  feat : Nat
  fix : Nat
  docs : Nat
  style : Nat
  refactor : Nat
  perf : Nat
  test : Nat
  build : Nat
  ci : Nat
  chore : Nat

/-- Pick the highest-scoring category; ties resolve to the one declared
earlier (`v > bestScore` in declaration order, `feat` first). -/
def pickBestType (s : TypeScores) : Str :=
  (([("fix".toList, s.fix), ("docs".toList, s.docs), ("style".toList, s.style),
     ("refactor".toList, s.refactor), ("perf".toList, s.perf), ("test".toList, s.test),
     ("build".toList, s.build), ("ci".toList, s.ci), ("chore".toList, s.chore)]).foldl
    (fun b kv => if b.2 < kv.2 then kv else b) ("feat".toList, s.feat)).1

/-- `inferCommitTypeScored`: weighted scoring over file classes, keyword
matches, monorepo signals and new-file markers, with the fix-to-feat
adjustment and the chore-to-feat upgrade. -/
def inferCommitTypeScored (diffOutput : Str) (files : List Str)
    (currentTitle subject : Str) : Str :=
  let d := lowerS diffOutput
  let t := lowerS (currentTitle ++ (' ' :: subject))
  let dt := d ++ (' ' :: t)
  let someCode := files.any isCodeFile
  let monorepoSignals := monorepoTextSignal dt || files.any monorepoFileSignal
  let added := addedMarks d
  let s : TypeScores := {
    feat := (if someCode then 2 else 0) + (if monorepoSignals then 3 else 0) +
            (if 3 ≤ added then 2 else 0),
    fix := if fixKeywords dt then 2 else 0,
    docs := if files.any isDocsFile then 2 else 0,
    style := if files.any isStyleFile then 2 else 0,
    refactor := if refactorKeywords dt then 2 else 0,
    perf := if perfKeywords dt then 2 else 0,
    test := if files.any isTestFile then 2 else 0,
    build := (if files.any isBuildFile then (if someCode then 2 else 3) else 0) +
             (if monorepoSignals then 2 else 0),
    ci := if files.any isCiFile then (if someCode then 1 else 3) else 0,
    chore := 0 }
  let best := pickBestType s
  let best2 :=
    if best = ("fix".toList) ∧
        (monorepoSignals = true ∨ 3 ≤ added ∨ s.fix - 1 ≤ s.feat) then
      "feat".toList
    else best
  if best2 = ("chore".toList) ∧ someCode = true then "feat".toList else best2

/-! ### Title assembly (`formatConventionalCommitTitle`) -/

/-- `replace(/\s*#\d+\s*$/g, '')`: strip a trailing issue reference. -/
def stripIssueRef (s : Str) : Str :=
  let r := s.reverse
  let r1 := r.dropWhile isWsChar
  let ds := r1.takeWhile isAsciiDigit
  let r2 := r1.drop ds.length
  match r2 with
  | '#' :: r3 => if ds = [] then s else (r3.dropWhile isWsChar).reverse
  | _ => s

/-- The assembled `type(scope): ` head of the final title. -/
def mkPfx (ty : Str) (sc : Option Str) : Str :=
  ty ++ (match sc with
         | some s => '(' :: (s ++ [')'])
         | none => []) ++ (':' :: [' '])

/-- The type and scope chosen by the synthesizer: parsed components when the
sanitized title is already conventional, otherwise inferred from the diff
and files. -/
def titleComponents (subject diffOutput : Str) (files : List Str)
    (currentTitle : Str) : Str × Option Str :=
  let p := parseConventionalCommit subject
  let bare := if p.type.isSome then p.subject else subject
  ((match p.type with
    | some ty0 => ty0
    | none => inferCommitTypeScored diffOutput files currentTitle bare),
   (match p.scope with
    | some sc => some sc
    | none => chooseScopeFromFilesWithMonorepo files))

/-- The subject processing of the assembly step: strip issue references and
trim, rewrite to imperative mood, truncate to the remaining budget, strip
residual trailing punctuation. -/
def subjectPipeline (allowed : Nat) (bare : Str) : Str :=
  let b1 := jsTrim (stripIssueRef bare)
  let b2 := toImperative b1
  let b3 := if allowed < b2.length then jsTrim (b2.take allowed) else b2
  stripTrailingPunct b3

/-- `formatConventionalCommitTitle`: parse or infer the components, process
the subject, and assemble `type(scope): subject` within the 72-character
budget (only the subject is truncated). -/
def formatConventionalCommitTitle (subject diffOutput : Str) (files : List Str)
    (currentTitle : Str) : Str :=
  let p := parseConventionalCommit subject
  let bare := if p.type.isSome then p.subject else subject
  let comps := titleComponents subject diffOutput files currentTitle
  let pfx := mkPfx comps.1 comps.2
  pfx ++ subjectPipeline (72 - pfx.length) bare

/-- The full Title Synthesizer: sanitize the raw AI title, then format. -/
def synthesizeTitle (raw diffOutput : Str) (files : List Str) (currentTitle : Str) : Str :=
  formatConventionalCommitTitle (sanitizeTitle raw) diffOutput files currentTitle

/-- A conventional title `ty(s): subj` in raw character form. -/
def mkTitle (ty s subj : Str) : Str :=
  ty ++ ('(' :: (s ++ (')' :: ':' :: ' ' :: subj)))

/-! ### Concrete fixtures used by witnesses and counterexamples -/

/-- A transient-unavailable error (HTTP 503). -/
def e503x : JSError := ⟨some 503, "boom".toList⟩

/-- A fatal error (HTTP 500, no retryable marker in the message). -/
def e500x : JSError := ⟨some 500, "kaput".toList⟩

/-- A provider that fails every call with a 503. -/
def all503Script : Nat → GenOutcome := fun _ => .err e503x

/-- The primary model name used in the concrete runs. -/
def proModelStr : Str := "gemini-2.5-pro".toList

/-- A minimal helper configuration (no overrides). -/
def cfg0 : HelperCfg := ⟨none, none, 0⟩

/-- A `MAX_TOKENS` response with no text parts. -/
def respMTEmpty : GenResp := ⟨[], some maxTokensReason⟩

/-- A `MAX_TOKENS` response carrying partial text. -/
def respMTText : GenResp := ⟨[some ("partial answer".toList)], some maxTokensReason⟩

/-- A plain successful response. -/
def respOk : GenResp := ⟨[some ("ok".toList)], none⟩

/-- Script: truncated-and-empty first response, then a success. -/
def scriptEmptyMT : Nat → GenOutcome :=
  fun n => if n = 1 then .ok respMTEmpty else .ok respOk

/-- Script: truncated nonempty first response, then a length-limited
continuation response. -/
def scriptContMT : Nat → GenOutcome :=
  fun n => if n = 1 then .ok respMTText else .ok ⟨[some (" and more".toList)], some maxTokensReason⟩

/-- Script: truncated first response, then a retryable 503 failure on the
direct follow-up call. -/
def scriptFollowupErr : Nat → GenOutcome :=
  fun n => if n = 1 then .ok respMTText else .err e503x

/-! ### Helper lemmas about trimming -/

theorem dropWhile_self_head {p : α → Bool} {l : List α} (h : l.dropWhile p = l) :
    ∀ a t, l = a :: t → p a = false := by
  intro a t hl
  subst hl
  by_cases hp : p a = true
  · exfalso
    rw [List.dropWhile_cons_of_pos hp] at h
    have := congrArg List.length h
    have hle := (List.dropWhile_sublist (l := t) p).length_le
    simp at this
    omega
  · simpa using hp

theorem dropWhile_idem (p : α → Bool) (l : List α) :
    (l.dropWhile p).dropWhile p = l.dropWhile p := by
  induction l with
  | nil => rfl
  | cons a t ih =>
    by_cases hp : p a = true
    · rw [List.dropWhile_cons_of_pos hp]; exact ih
    · rw [List.dropWhile_cons_of_neg (by simpa using hp),
        List.dropWhile_cons_of_neg (by simpa using hp)]

theorem dropWs_eq_of_jsTrim {l : Str} (h : jsTrim l = l) : dropWs l = l := by
  have h1 : (dropWs l).length ≤ l.length := (List.dropWhile_sublist _).length_le
  have h2 : (jsTrim l).length ≤ (dropWs l).length := by
    unfold jsTrim rdropWs
    simpa using (List.dropWhile_sublist (l := (dropWs l).reverse) isWsChar).length_le
  rw [h] at h2
  exact (List.dropWhile_sublist _).eq_of_length (by simp only [dropWs] at h1 h2 ⊢; omega)

theorem rdropWs_eq_of_jsTrim {l : Str} (h : jsTrim l = l) : rdropWs l = l := by
  have hd := dropWs_eq_of_jsTrim h
  have : jsTrim l = rdropWs l := by rw [jsTrim, hd]
  rw [← this, h]

theorem rdropWs_rev_eq {l : Str} (h : rdropWs l = l) :
    l.reverse.dropWhile isWsChar = l.reverse := by
  have := congrArg List.reverse h
  rwa [rdropWs, List.reverse_reverse] at this

theorem jsTrim_head_not_ws {l : Str} (h : jsTrim l = l) :
    ∀ a t, l = a :: t → isWsChar a = false := by
  intro a t hl
  exact dropWhile_self_head (dropWs_eq_of_jsTrim h) a t hl

theorem rdropWs_idem (l : Str) : rdropWs (rdropWs l) = rdropWs l := by
  unfold rdropWs
  rw [List.reverse_reverse, dropWhile_idem]

theorem rdropWs_pfx (l : Str) : ∃ w, l = rdropWs l ++ w := by
  obtain ⟨w, hw⟩ := List.dropWhile_suffix (l := l.reverse) isWsChar
  refine ⟨w.reverse, ?_⟩
  have h2 := congrArg List.reverse hw
  rw [List.reverse_append, List.reverse_reverse] at h2
  rw [rdropWs]
  exact h2.symm

theorem dropWs_rdropWs {l : Str} (h : dropWs l = l) : dropWs (rdropWs l) = rdropWs l := by
  cases hr : rdropWs l with
  | nil => rfl
  | cons a t =>
    obtain ⟨w, hw⟩ := rdropWs_pfx l
    rw [hr] at hw
    have ha : isWsChar a = false := by
      cases hl : l with
      | nil => rw [hl] at hw; exact absurd hw (by simp)
      | cons b u =>
        have hb : isWsChar b = false := dropWhile_self_head (p := isWsChar) h b u hl
        rw [hl] at hw
        injection hw with h1 _
        rwa [h1] at hb
    exact List.dropWhile_cons_of_neg (by simpa using ha)

theorem jsTrim_idem (l : Str) : jsTrim (jsTrim l) = jsTrim l := by
  have h1 : dropWs (jsTrim l) = jsTrim l := by
    unfold jsTrim
    exact dropWs_rdropWs (dropWhile_idem isWsChar l)
  rw [jsTrim, h1]
  unfold jsTrim
  exact rdropWs_idem _

theorem jsTrim_append_of_trimmed {l m : Str} (hl : jsTrim l = l) (hl0 : l ≠ [])
    (hm : jsTrim m = m) : jsTrim (l ++ m) = l ++ m := by
  obtain ⟨a, t, rfl⟩ : ∃ a t, l = a :: t := by
    cases l with
    | nil => exact absurd rfl hl0
    | cons a t => exact ⟨a, t, rfl⟩
  have ha := jsTrim_head_not_ws hl a t rfl
  have h1 : dropWs (a :: t ++ m) = a :: t ++ m := by
    rw [List.cons_append, dropWs, List.dropWhile_cons_of_neg (by simpa using ha)]
  rw [jsTrim, h1]
  cases m with
  | nil =>
    rw [List.append_nil]
    exact rdropWs_eq_of_jsTrim hl
  | cons b u =>
    have hmr : (b :: u).reverse.dropWhile isWsChar = (b :: u).reverse :=
      rdropWs_rev_eq (rdropWs_eq_of_jsTrim hm)
    obtain ⟨c, v, hrev⟩ : ∃ c v, (b :: u).reverse = c :: v := by
      cases hx : (b :: u : Str).reverse with
      | nil => simp at hx
      | cons c v => exact ⟨c, v, rfl⟩
    rw [hrev] at hmr
    have hc : isWsChar c = false := dropWhile_self_head hmr c v rfl
    rw [rdropWs, List.reverse_append, hrev, List.cons_append,
      List.dropWhile_cons_of_neg (by simpa using hc), ← List.cons_append, ← hrev,
      ← List.reverse_append, List.reverse_reverse]

theorem length_jsTrim_le (l : Str) : (jsTrim l).length ≤ l.length := by
  have h1 : (dropWs l).length ≤ l.length := (List.dropWhile_sublist _).length_le
  have h2 : (jsTrim l).length ≤ (dropWs l).length := by
    unfold jsTrim rdropWs
    simpa using (List.dropWhile_sublist (l := (dropWs l).reverse) isWsChar).length_le
  omega

/-! ### Helper lemmas about the retry loop -/

theorem retryGo_succ (script : Nat → GenOutcome) (ordered : List Str)
    (attempt fuel : Nat) (st : RetrySt) :
    retryGo script ordered attempt (fuel + 1) st =
      (match script attempt with
       | .ok r => ⟨.ok r (ordered.getD st.idx []), [(attempt, ordered.getD st.idx [])]⟩
       | .err e =>
         if is429 e || is503 e then
           if maxAttempts ≤ attempt then
             ⟨.fail (.raised e), [(attempt, ordered.getD st.idx [])]⟩
           else
             ⟨(retryGo script ordered (attempt + 1) fuel (advanceState ordered (is503 e) st)).res,
              (attempt, ordered.getD st.idx []) ::
                (retryGo script ordered (attempt + 1) fuel (advanceState ordered (is503 e) st)).calls⟩
         else ⟨.fail (.raised e), [(attempt, ordered.getD st.idx [])]⟩ : RunOut) := rfl

theorem retryGo_fatal (script : Nat → GenOutcome) (ordered : List Str)
    (attempt fuel : Nat) (st : RetrySt) (e : JSError)
    (hs : script attempt = .err e) (h429 : is429 e = false) (h503 : is503 e = false) :
    retryGo script ordered attempt (fuel + 1) st =
      ⟨.fail (.raised e), [(attempt, ordered.getD st.idx [])]⟩ := by
  rw [retryGo_succ, hs]
  simp [h429, h503]

theorem retryGo_retry_step (script : Nat → GenOutcome) (ordered : List Str)
    (attempt fuel : Nat) (st : RetrySt) (e : JSError)
    (hs : script attempt = .err e) (hr : (is429 e || is503 e) = true)
    (hlt : attempt < maxAttempts) :
    retryGo script ordered attempt (fuel + 1) st =
      ⟨(retryGo script ordered (attempt + 1) fuel (advanceState ordered (is503 e) st)).res,
       (attempt, ordered.getD st.idx []) ::
         (retryGo script ordered (attempt + 1) fuel (advanceState ordered (is503 e) st)).calls⟩ := by
  rw [retryGo_succ, hs]
  simp [hr, Nat.not_le.mpr hlt]

theorem retryGo_calls_ne (script : Nat → GenOutcome) (ordered : List Str)
    (attempt fuel : Nat) (st : RetrySt) :
    (retryGo script ordered attempt (fuel + 1) st).calls ≠ [] := by
  rw [retryGo_succ]
  cases script attempt with
  | ok r => simp
  | err e =>
    by_cases hr : (is429 e || is503 e) = true
    · by_cases hm : maxAttempts ≤ attempt
      · simp [hr, hm]
      · simp [hr, hm]
    · simp [hr]

theorem retryGo_all_retryable (script : Nat → GenOutcome) (ordered : List Str) :
    ∀ fuel attempt st, attempt + fuel = maxAttempts + 1 → 1 ≤ attempt → attempt ≤ maxAttempts →
    (∀ n, attempt ≤ n → n ≤ maxAttempts → ∃ en, script n = .err en ∧ (is429 en || is503 en) = true) →
    ∃ elast, script maxAttempts = .err elast ∧
      (retryGo script ordered attempt fuel st).res = .fail (.raised elast) := by
  intro fuel
  induction fuel with
  | zero =>
    intro attempt st h1 h2 h3 _
    omega
  | succ f ih =>
    intro attempt st h1 h2 h3 hall
    obtain ⟨e, he, hr⟩ := hall attempt le_rfl h3
    by_cases hmax : maxAttempts ≤ attempt
    · have heq : attempt = maxAttempts := le_antisymm h3 hmax
      subst heq
      refine ⟨e, he, ?_⟩
      rw [retryGo_succ, he]
      simp [hr, hmax]
    · push_neg at hmax
      rw [retryGo_retry_step script ordered attempt f st e he hr hmax]
      obtain ⟨el, hel, hres⟩ :=
        ih (attempt + 1) (advanceState ordered (is503 e) st) (by omega) (by omega) (by omega)
          (fun n hn1 hn2 => hall n (by omega) hn2)
      exact ⟨el, hel, hres⟩

/-! ### Claim C1 -/

set_option maxRecDepth 8000 in
/-- C1 counterexample.  The claim states that when the consecutive-503 count
exceeds 10 and a fallback remains, the orchestrator advances the model *and
resets the counter to zero*, so that every fallback model again needs more
than 10 consecutive transient failures before a further switch.  In the code
the counter is not reset: from state `⟨idx 0, consec 10⟩` the 11th
consecutive 503 yields state `⟨1, 11⟩` (counter 11, not 0), and on an
all-503 run the first fallback model serves only attempt 12 — attempt 13
already runs on the second fallback `gemini-1.5-flash`, where a reset
counter would have kept `gemini-2.5-flash` through attempt 22. -/
theorem c1_counterexample :
    (advanceState (orderedLadder proModelStr) true ⟨0, 10⟩).consec = 11 ∧
    (advanceState (orderedLadder proModelStr) true ⟨0, 10⟩).consec ≠ 0 ∧
    (generateWithRetry all503Script proModelStr).calls.getD 11 (0, []) =
      (12, "gemini-2.5-flash".toList) ∧
    (generateWithRetry all503Script proModelStr).calls.getD 12 (0, []) =
      (13, "gemini-1.5-flash".toList) := by
  decide

/-- C1, amended: once the consecutive transient-unavailable count exceeds 10
and a fallback model remains in the ladder, the orchestrator advances to the
next model but carries the counter over unchanged (it is not reset), so
while failures stay transient every subsequent attempt advances again until
the ladder is exhausted. -/
theorem c1_theorem (ordered : List Str) (st : RetrySt)
    (hc : 10 < st.consec + 1) (hi : st.idx < ordered.length - 1) :
    advanceState ordered true st = ⟨st.idx + 1, st.consec + 1⟩ ∧
    (advanceState ordered true st).consec ≠ 0 := by
  have h : advanceState ordered true st = ⟨st.idx + 1, st.consec + 1⟩ := by
    simp [advanceState, hc, hi]
  exact ⟨h, by rw [h]; simp⟩

/-- Witness for `c1_theorem` at the concrete post-threshold state. -/
theorem c1_witness :
    advanceState (orderedLadder proModelStr) true ⟨0, 10⟩ = ⟨1, 11⟩ ∧
    (advanceState (orderedLadder proModelStr) true ⟨0, 10⟩).consec ≠ 0 :=
  c1_theorem (orderedLadder proModelStr) ⟨0, 10⟩ (by decide) (by decide)

/-! ### Claim C3 -/

/-- C3 counterexample.  The claim asserts that for *every* externally
supplied `MAX_OUTPUT_TOKENS` override the value passed to the provider is
≥ 768; but the helper variant in `src/ai/gemini-ai-helper.ts` forwards any
positive numeric override unclamped: override `"100"` yields 100 < 768. -/
theorem c3_counterexample :
    rawMaxTokens (some ("100".toList)) = 100 ∧
    ¬ 768 ≤ rawMaxTokens (some ("100".toList)) := by
  decide

/-- C3, amended: in the resolver and in the lower-bound helper variant the
`maxOutputTokens` value is ≥ 768 for every override value, including
negative and non-numeric ones (the variant reading the override without the
`Math.max(768, …)` clamp does not give this guarantee, see the
counterexample). -/
theorem c3_theorem (env : Option Str) :
    768 ≤ clampedMaxTokens 1024 env ∧ 768 ≤ clampedMaxTokens 1536 env := by
  constructor <;>
  · unfold clampedMaxTokens
    cases parseIntJS (env.getD []) with
    | none => norm_num
    | some v =>
      by_cases hv : 0 < v
      · simp only [hv, if_true]
        exact le_max_left _ _
      · simp only [hv, if_false]
        norm_num

/-! ### Claim C4 -/

set_option maxRecDepth 8000 in
/-- C4 counterexample.  The claim asserts that when all 100 attempts are
exhausted the call fails with the dedicated EXHAUSTED error; in fact at
attempt 100 a retryable failure is rethrown directly (`attempt >=
maxAttempts`), so an all-503 run fails with the last 503 error and the
exhausted-retries error is unreachable. -/
theorem c4_counterexample :
    (generateWithRetry all503Script proModelStr).res = .fail (.raised e503x) ∧
    (generateWithRetry all503Script proModelStr).res ≠ .fail .exhaustedLoop ∧
    (generateWithRetry all503Script proModelStr).calls.length = 100 := by
  decide

/-- C4, amended: a failure classified neither as 429 nor as 503 aborts the
run immediately with that error and no further attempt is made; 429/503
failures are retried (the trace continues past the failing attempt); and if
every attempt up to the ceiling fails retryably, the call fails by
rethrowing the 100th attempt's error rather than returning a result (the
dedicated exhausted-retries error is never produced). -/
theorem c4_theorem (script : Nat → GenOutcome) (m0 : Str) (e : JSError) :
    (script 1 = .err e → is429 e = false → is503 e = false →
      (generateWithRetry script m0).res = .fail (.raised e) ∧
      (generateWithRetry script m0).calls = [(1, m0)]) ∧
    (script 1 = .err e → (is429 e || is503 e) = true →
      ∃ c2 rest, (generateWithRetry script m0).calls = (1, m0) :: c2 :: rest) ∧
    ((∀ n, 1 ≤ n → n ≤ maxAttempts →
        ∃ en, script n = .err en ∧ (is429 en || is503 en) = true) →
      ∃ elast, script maxAttempts = .err elast ∧
        (generateWithRetry script m0).res = .fail (.raised elast)) := by
  refine ⟨?_, ?_, ?_⟩
  · intro hs h429 h503
    have h : generateWithRetry script m0 =
        retryGo script (orderedLadder m0) 1 (99 + 1) ⟨0, 0⟩ := rfl
    rw [h, retryGo_fatal script (orderedLadder m0) 1 99 ⟨0, 0⟩ e hs h429 h503]
    exact ⟨rfl, rfl⟩
  · intro hs hr
    have h : generateWithRetry script m0 =
        retryGo script (orderedLadder m0) 1 (99 + 1) ⟨0, 0⟩ := rfl
    rw [h, retryGo_retry_step script (orderedLadder m0) 1 99 ⟨0, 0⟩ e hs hr (by decide)]
    rcases hx : (retryGo script (orderedLadder m0) (1 + 1) 99
        (advanceState (orderedLadder m0) (is503 e) ⟨0, 0⟩)).calls with _ | ⟨c2, rest⟩
    · exact absurd hx (retryGo_calls_ne script (orderedLadder m0) (1 + 1) 98 _)
    · exact ⟨c2, rest, rfl⟩
  · intro hall
    exact retryGo_all_retryable script (orderedLadder m0) maxAttempts 1 ⟨0, 0⟩
      (by decide) (by decide) (by decide) (fun n h1 h2 => hall n h1 h2)

/-- Witness for `c4_theorem`: the all-503 run fails by rethrowing the final
503 error. -/
theorem c4_witness :
    ∃ elast, all503Script maxAttempts = .err elast ∧
      (generateWithRetry all503Script proModelStr).res = .fail (.raised elast) :=
  (c4_theorem all503Script proModelStr e503x).2.2
    (fun _ _ _ => ⟨e503x, rfl, by decide⟩)

/-! ### Claim C5 -/

/-- C5 (confirmed): when the first successful response finishes with
MAX_TOKENS and its text is empty, `createPullRequestDescription` issues
exactly one follow-up request — to the model that served the first response,
with `maxOutputTokens` raised to `ceil(1.5 * initial)` (characterised below
by `3n ≤ 2·bumped ≤ 3n + 1`) — and, when that retry succeeds, returns the
retry's text as-is, even if it is still empty, without raising an error. -/
theorem c5_theorem (cfg : HelperCfg) (script : Nat → GenOutcome) (prompt : Str)
    (resp : GenResp) (modelUsed : Str)
    (hrun : (generateWithRetry script (resolveModelName cfg.model)).res = .ok resp modelUsed)
    (hfin : resp.finishReason = some maxTokensReason)
    (hempty : concatCandidatePartsText resp = []) :
    (createPullRequestDescription cfg script prompt).requests =
      (generateWithRetry script (resolveModelName cfg.model)).calls.map
        (fun c => Request.mk c.2 (initialPayload cfg prompt)) ++
      [⟨modelUsed, bumpedPayload cfg prompt⟩] ∧
    (createPullRequestDescription cfg script prompt).requests.length =
      (generateWithRetry script (resolveModelName cfg.model)).calls.length + 1 ∧
    3 * initialMaxTokens cfg ≤ 2 * (bumpedPayload cfg prompt).maxOutputTokens ∧
    2 * (bumpedPayload cfg prompt).maxOutputTokens ≤ 3 * initialMaxTokens cfg + 1 ∧
    (∀ r2,
      script ((generateWithRetry script (resolveModelName cfg.model)).calls.length + 1) = .ok r2 →
      (createPullRequestDescription cfg script prompt).result =
        .ok (concatCandidatePartsText r2)) := by
  have hreq : (createPullRequestDescription cfg script prompt).requests =
      (generateWithRetry script (resolveModelName cfg.model)).calls.map
        (fun c => Request.mk c.2 (initialPayload cfg prompt)) ++
      [⟨modelUsed, bumpedPayload cfg prompt⟩] := by
    simp only [createPullRequestDescription]
    rw [hrun]
    simp only [hfin, hempty, if_pos rfl]
    cases hs2 : script ((generateWithRetry script (resolveModelName cfg.model)).calls.length + 1) with
    | ok r2 => simp [hs2, hempty]
    | err e => simp [hs2, hempty]
  refine ⟨hreq, by rw [hreq]; simp, ?_, ?_, ?_⟩
  · show 3 * initialMaxTokens cfg ≤ 2 * bumpTokens (initialMaxTokens cfg)
    unfold bumpTokens
    omega
  · show 2 * bumpTokens (initialMaxTokens cfg) ≤ 3 * initialMaxTokens cfg + 1
    unfold bumpTokens
    omega
  · intro r2 hs2
    simp only [createPullRequestDescription]
    rw [hrun]
    simp only [hfin, hempty, if_pos rfl]
    simp [hs2, hempty]

/-- Witness for `c5_theorem`: a run whose first response is MAX_TOKENS with
no text and whose bumped retry returns "ok". -/
theorem c5_witness :
    (createPullRequestDescription cfg0 scriptEmptyMT []).result = .ok ("ok".toList) :=
  (c5_theorem cfg0 scriptEmptyMT [] respMTEmpty defaultGeminiModel
      (by decide) (by decide) (by decide)).2.2.2.2 respOk (by decide)

/-! ### Claim C6 -/

/-- C6 (confirmed): when the first successful response finishes with
MAX_TOKENS and has nonempty text, exactly one continuation request is issued
— to the same model, replaying the prompt as a user turn, the partial output
as a model turn and the continue instruction, at the initial token budget —
and when it succeeds the returned text is the concatenation of the partial
text with the continuation text, so its length is ≥ the pre-continuation
length; the request trace has exactly one extra entry regardless of the
continuation's own finish reason, so no second continuation round occurs
even if the continuation is itself length-limited. -/
theorem c6_theorem (cfg : HelperCfg) (script : Nat → GenOutcome) (prompt : Str)
    (resp : GenResp) (modelUsed : Str)
    (hrun : (generateWithRetry script (resolveModelName cfg.model)).res = .ok resp modelUsed)
    (hfin : resp.finishReason = some maxTokensReason)
    (hne : concatCandidatePartsText resp ≠ []) :
    (createPullRequestDescription cfg script prompt).requests =
      (generateWithRetry script (resolveModelName cfg.model)).calls.map
        (fun c => Request.mk c.2 (initialPayload cfg prompt)) ++
      [⟨modelUsed, contPayloadOf cfg prompt (concatCandidatePartsText resp)⟩] ∧
    (contPayloadOf cfg prompt (concatCandidatePartsText resp)).contents =
      [mkUserTurn prompt, mkModelTurn (concatCandidatePartsText resp),
       mkUserTurn contInstruction] ∧
    (contPayloadOf cfg prompt (concatCandidatePartsText resp)).maxOutputTokens =
      initialMaxTokens cfg ∧
    (createPullRequestDescription cfg script prompt).requests.length =
      (generateWithRetry script (resolveModelName cfg.model)).calls.length + 1 ∧
    (∀ r2,
      script ((generateWithRetry script (resolveModelName cfg.model)).calls.length + 1) = .ok r2 →
      (createPullRequestDescription cfg script prompt).result =
        .ok (concatCandidatePartsText resp ++ concatCandidatePartsText r2) ∧
      (concatCandidatePartsText resp).length ≤
        (concatCandidatePartsText resp ++ concatCandidatePartsText r2).length) := by
  have hJT : jsTrim (concatCandidatePartsText resp) = concatCandidatePartsText resp :=
    jsTrim_idem _
  have hcond : ¬(concatCandidatePartsText resp = [] ∨
      jsTrim (concatCandidatePartsText resp) = []) := by
    rw [hJT]
    simp [hne]
  have hreq : (createPullRequestDescription cfg script prompt).requests =
      (generateWithRetry script (resolveModelName cfg.model)).calls.map
        (fun c => Request.mk c.2 (initialPayload cfg prompt)) ++
      [⟨modelUsed, contPayloadOf cfg prompt (concatCandidatePartsText resp)⟩] := by
    simp only [createPullRequestDescription]
    rw [hrun]
    simp only [hfin, if_pos rfl, if_neg hcond]
    cases hs2 : script ((generateWithRetry script (resolveModelName cfg.model)).calls.length + 1) with
    | ok r2 => simp [hs2]
    | err e => simp [hs2]
  refine ⟨hreq, rfl, rfl, by rw [hreq]; simp, ?_⟩
  intro r2 hs2
  have htrim : jsTrim (concatCandidatePartsText resp ++ concatCandidatePartsText r2) =
      concatCandidatePartsText resp ++ concatCandidatePartsText r2 :=
    jsTrim_append_of_trimmed hJT hne (jsTrim_idem _)
  constructor
  · simp only [createPullRequestDescription]
    rw [hrun]
    simp only [hfin, if_pos rfl, if_neg hcond]
    simp [hs2, htrim]
  · simp

/-- Witness for `c6_theorem`: a truncated nonempty response followed by a
continuation that is itself length-limited; the texts are concatenated and
exactly two provider calls occur. -/
theorem c6_witness :
    (createPullRequestDescription cfg0 scriptContMT []).result =
      .ok ("partial answer".toList ++ "and more".toList) ∧
    (createPullRequestDescription cfg0 scriptContMT []).requests.length = 2 := by
  have h := c6_theorem cfg0 scriptContMT [] respMTText defaultGeminiModel
    (by decide) (by decide) (by decide)
  refine ⟨?_, h.2.2.2.1⟩
  have h1 := (h.2.2.2.2 ⟨[some (" and more".toList)], some maxTokensReason⟩ (by decide)).1
  rw [h1]
  decide

/-! ### Claim C10 -/

/-- C10 (confirmed): the bumped-token retry and the continuation request
after a MAX_TOKENS outcome are sent directly to the model instance, without
the retry/backoff/model-fallback wrapper — whenever that follow-up call
fails, even with a retryable 429/503 error, `createPullRequestDescription`
fails immediately with the wrapped error and issues no further request (the
trace holds exactly one follow-up entry). -/
theorem c10_theorem (cfg : HelperCfg) (script : Nat → GenOutcome) (prompt : Str)
    (resp : GenResp) (modelUsed : Str) (e : JSError)
    (hrun : (generateWithRetry script (resolveModelName cfg.model)).res = .ok resp modelUsed)
    (hfin : resp.finishReason = some maxTokensReason)
    (herr : script ((generateWithRetry script (resolveModelName cfg.model)).calls.length + 1) =
      .err e) :
    (createPullRequestDescription cfg script prompt).result =
      .fail (geminiWrap e.message) ∧
    (createPullRequestDescription cfg script prompt).requests.length =
      (generateWithRetry script (resolveModelName cfg.model)).calls.length + 1 := by
  by_cases hc : concatCandidatePartsText resp = [] ∨
      jsTrim (concatCandidatePartsText resp) = []
  · constructor
    · simp only [createPullRequestDescription]
      rw [hrun]
      simp only [hfin, if_pos rfl, if_pos hc]
      simp [herr]
    · simp only [createPullRequestDescription]
      rw [hrun]
      simp only [hfin, if_pos rfl, if_pos hc]
      simp [herr]
  · constructor
    · simp only [createPullRequestDescription]
      rw [hrun]
      simp only [hfin, if_pos rfl, if_neg hc]
      simp [herr]
    · simp only [createPullRequestDescription]
      rw [hrun]
      simp only [hfin, if_pos rfl, if_neg hc]
      simp [herr]

/-- Witness for `c10_theorem`: the follow-up continuation call fails with a
retryable 503, yet the run fails immediately after exactly two calls. -/
theorem c10_witness :
    (createPullRequestDescription cfg0 scriptFollowupErr []).result =
      .fail (geminiWrap ("boom".toList)) ∧
    (createPullRequestDescription cfg0 scriptFollowupErr []).requests.length = 2 :=
  c10_theorem cfg0 scriptFollowupErr [] respMTText defaultGeminiModel e503x
    (by decide) (by decide) (by decide)

/-! ### Claim C2 -/

/-- C2 counterexample.  The claim asserts that the changed-file list
`["apps/web/a.ts", "apps/api/b.ts", "apps/web/c.ts"]` yields scope
`"monorepo"`; the scope chooser instead returns `"web"`: the best candidate
`web` covers 2 of 3 files (not below half), only two groups are touched, no
apps/packages or backend/frontend conflict occurs, and no workspace manifest
file is present. -/
theorem c2_counterexample :
    chooseScopeFromFilesWithMonorepo
      ["apps/web/a.ts".toList, "apps/api/b.ts".toList, "apps/web/c.ts".toList] =
      some ("web".toList) ∧
    chooseScopeFromFilesWithMonorepo
      ["apps/web/a.ts".toList, "apps/api/b.ts".toList, "apps/web/c.ts".toList] ≠
      some ("monorepo".toList) := by
  decide

/-- C2, amended: scope inference maps
`["apps/web/a.ts", "apps/api/b.ts", "apps/web/c.ts"]` to the dominant apps
child area `"web"` (the monorepo fallback fires only for sub-half coverage,
more than three groups, simultaneous apps+packages or backend+frontend
areas, or workspace manifest files), and maps `["README.md"]` to `"repo"`. -/
theorem c2_theorem :
    chooseScopeFromFilesWithMonorepo
      ["apps/web/a.ts".toList, "apps/api/b.ts".toList, "apps/web/c.ts".toList] =
      some ("web".toList) ∧
    chooseScopeFromFilesWithMonorepo ["README.md".toList] = some ("repo".toList) := by
  decide

/-! ### Claim C7 -/

/-- Stripping trailing punctuation never lengthens a string. -/
theorem length_stripTrailingPunct_le (s : Str) :
    (stripTrailingPunct s).length ≤ s.length := by
  unfold stripTrailingPunct
  have h := (List.dropWhile_sublist (l := s.reverse) isEndPunct).length_le
  simp only [List.length_reverse] at h ⊢
  exact h

/-- The processed subject fits the remaining budget. -/
theorem subjectPipeline_length_le (allowed : Nat) (bare : Str) :
    (subjectPipeline allowed bare).length ≤ allowed := by
  unfold subjectPipeline
  by_cases h : allowed < (toImperative (jsTrim (stripIssueRef bare))).length
  · simp only [h, if_true]
    calc (stripTrailingPunct (jsTrim ((toImperative (jsTrim (stripIssueRef bare))).take allowed))).length
        ≤ (jsTrim ((toImperative (jsTrim (stripIssueRef bare))).take allowed)).length :=
          length_stripTrailingPunct_le _
      _ ≤ ((toImperative (jsTrim (stripIssueRef bare))).take allowed).length :=
          length_jsTrim_le _
      _ ≤ allowed := by simp
  · simp only [h, if_false]
    calc (stripTrailingPunct (toImperative (jsTrim (stripIssueRef bare)))).length
        ≤ (toImperative (jsTrim (stripIssueRef bare))).length :=
          length_stripTrailingPunct_le _
      _ ≤ allowed := by omega

set_option maxRecDepth 16000 in
/-- C7 counterexample.  The claim asserts a 72-character bound for every
input; with a single changed file under `apps/` whose directory name has 65
characters the inferred scope makes the `type(scope): ` head alone 73
characters long, so the synthesized title has length 73 > 72. -/
theorem c7_counterexample :
    72 < (synthesizeTitle ("x".toList) []
      ["apps/aaaaaaaaaaaaaaaaaaaaaaaaaaaaaaaaaaaaaaaaaaaaaaaaaaaaaaaaaaaaaaaaa/a.ts".toList]
      []).length := by
  decide

/-- C7, amended: the synthesized title is always the assembled
`type(scope): ` head followed by a subject that fits the remaining budget —
only the subject is truncated, never the head — and whenever the head itself
is at most 72 characters (always the case for parsed scopes, but violable by
long file-derived scopes) the whole title is at most 72 characters. -/
theorem c7_theorem (raw diffOutput : Str) (files : List Str) (currentTitle : Str)
    (hp : (mkPfx (titleComponents (sanitizeTitle raw) diffOutput files currentTitle).1
      (titleComponents (sanitizeTitle raw) diffOutput files currentTitle).2).length ≤ 72) :
    (synthesizeTitle raw diffOutput files currentTitle).length ≤ 72 ∧
    ∃ fs, synthesizeTitle raw diffOutput files currentTitle =
        mkPfx (titleComponents (sanitizeTitle raw) diffOutput files currentTitle).1
          (titleComponents (sanitizeTitle raw) diffOutput files currentTitle).2 ++ fs ∧
      fs.length ≤ 72 -
        (mkPfx (titleComponents (sanitizeTitle raw) diffOutput files currentTitle).1
          (titleComponents (sanitizeTitle raw) diffOutput files currentTitle).2).length := by
  have hfs := subjectPipeline_length_le
    (72 - (mkPfx (titleComponents (sanitizeTitle raw) diffOutput files currentTitle).1
      (titleComponents (sanitizeTitle raw) diffOutput files currentTitle).2).length)
    (if (parseConventionalCommit (sanitizeTitle raw)).type.isSome then
      (parseConventionalCommit (sanitizeTitle raw)).subject else sanitizeTitle raw)
  have heq : synthesizeTitle raw diffOutput files currentTitle =
      mkPfx (titleComponents (sanitizeTitle raw) diffOutput files currentTitle).1
        (titleComponents (sanitizeTitle raw) diffOutput files currentTitle).2 ++
      subjectPipeline
        (72 - (mkPfx (titleComponents (sanitizeTitle raw) diffOutput files currentTitle).1
          (titleComponents (sanitizeTitle raw) diffOutput files currentTitle).2).length)
        (if (parseConventionalCommit (sanitizeTitle raw)).type.isSome then
          (parseConventionalCommit (sanitizeTitle raw)).subject else sanitizeTitle raw) := rfl
  refine ⟨?_, _, heq, hfs⟩
  rw [heq, List.length_append]
  omega

/-- Witness for `c7_theorem` on a short scope: the head `feat(cache): ` fits
and the full title obeys the bound. -/
theorem c7_witness :
    (synthesizeTitle ("x".toList) [] ["src/cache/a.ts".toList] []).length ≤ 72 ∧
    ∃ fs, synthesizeTitle ("x".toList) [] ["src/cache/a.ts".toList] [] =
        mkPfx (titleComponents (sanitizeTitle ("x".toList)) [] ["src/cache/a.ts".toList] []).1
          (titleComponents (sanitizeTitle ("x".toList)) [] ["src/cache/a.ts".toList] []).2 ++ fs ∧
      fs.length ≤ 72 -
        (mkPfx (titleComponents (sanitizeTitle ("x".toList)) [] ["src/cache/a.ts".toList] []).1
          (titleComponents (sanitizeTitle ("x".toList)) [] ["src/cache/a.ts".toList] []).2).length :=
  c7_theorem ("x".toList) [] ["src/cache/a.ts".toList] [] (by decide)

/-! ### Claim C8 -/

/-- Under an all-true predicate prefix, `takeWhile` passes the prefix
through and stops at a failing head of the remainder. -/
theorem takeWhile_pfx_append {p : Char → Bool} {w r : Str}
    (hw : ∀ x ∈ w, p x = true)
    (hr : r = [] ∨ ∃ d r2, r = d :: r2 ∧ p d = false) :
    (w ++ r).takeWhile p = w := by
  have hself : w.takeWhile p = w := List.takeWhile_eq_self_iff.mpr (by simpa using hw)
  rw [List.takeWhile_append, hself, if_pos rfl]
  rcases hr with rfl | ⟨d, r2, rfl, hd⟩
  · simp
  · rw [List.takeWhile_cons_of_neg (by simp [hd])]
    simp

/-- C8 counterexample.  The claim says a subject whose leading word is not
in the lemma table passes through unchanged, including its capitalization;
`toImperative` actually replaces an unrecognized leading word with its
lowercased form: "Launches rocket" becomes "launches rocket". -/
theorem c8_counterexample :
    toImperative ("Launches rocket".toList) = "launches rocket".toList ∧
    toImperative ("Launches rocket".toList) ≠ "Launches rocket".toList := by
  decide

/-- C8, amended: on a normalized subject whose leading word starts with a
letter, `toImperative` replaces the word by `lemmas[lower] || lower`: a word
whose lowercasing is in the fixed table maps to its imperative base form,
and a word outside the table is replaced by its lowercased form — hence it
passes through entirely unchanged exactly when it is already lowercase. -/
theorem c8_theorem (c : Char) (w2 r : Str)
    (hc : isAsciiLetter c = true)
    (hw : ∀ x ∈ w2, isWordTailChar x = true)
    (hr : r = [] ∨ ∃ d r2, r = d :: r2 ∧ isWordTailChar d = false)
    (hnorm : stripTrailingPunct (collapseWs (jsTrim (c :: (w2 ++ r)))) = c :: (w2 ++ r)) :
    toImperative (c :: (w2 ++ r)) =
      ((lemmaTable.lookup (lowerS (c :: w2))).getD (lowerS (c :: w2))) ++ r := by
  have htw : (w2 ++ r).takeWhile isWordTailChar = w2 := takeWhile_pfx_append hw hr
  have hword : wordFrom (c :: (w2 ++ r)) = some (c :: w2) := by
    unfold wordFrom
    simp [hc, htw]
  have hfind : findWord 0 (c :: (w2 ++ r)) = some (0, c :: w2) := by
    unfold findWord altMatch
    simp [hword]
  unfold toImperative
  rw [if_neg (by simp)]
  rw [hnorm]
  unfold rewriteWord
  rw [hfind]
  simp only [List.take_zero, List.nil_append, Nat.zero_add]
  congr 1
  rw [show (c :: (w2 ++ r) : Str) = (c :: w2) ++ r by simp]
  exact List.drop_left _ _

/-- Witness for `c8_theorem`: the table verb "Adds" is rewritten to its base
form "add". -/
theorem c8_witness :
    toImperative ("Adds caching".toList) = "add caching".toList := by
  have h := c8_theorem 'A' ("dds".toList) (" caching".toList) (by decide) (by decide)
    (Or.inr ⟨' ', "caching".toList, by decide, by decide⟩) (by decide)
  rw [(by decide : ("Adds caching".toList : Str) =
    'A' :: ("dds".toList ++ " caching".toList)), h]
  decide

/-! ### Claim C9 -/

theorem ctypes_lower : ∀ t ∈ ctypes, ∀ c ∈ t, lowerC c = c := by decide

theorem ctypes_letters : ∀ t ∈ ctypes, ∀ c ∈ t, isAsciiLetter c = true := by decide

theorem ctypes_noPfx : ∀ t1 ∈ ctypes, ∀ t2 ∈ ctypes, t2.take t1.length = t1 → t1 = t2 := by
  decide

theorem matchPfxCI_self (t r : Str) (hlow : ∀ c ∈ t, lowerC c = c) :
    matchPfxCI t (t ++ r) = some r := by
  induction t with
  | nil => rfl
  | cons a t ih =>
    rw [List.cons_append]
    unfold matchPfxCI
    rw [hlow a (List.mem_cons_self a t)]
    simp only [beq_self_eq_true, if_true]
    exact ih (fun c hc => hlow c (List.mem_cons_of_mem a hc))

theorem matchPfxCI_some (t : Str) : ∀ u r : Str, matchPfxCI t u = some r →
    lowerS (u.take t.length) = t ∧ u = u.take t.length ++ r := by
  induction t with
  | nil =>
    intro u r h
    unfold matchPfxCI at h
    injection h with h
    subst h
    simp [lowerS]
  | cons p ps ih =>
    intro u r h
    cases u with
    | nil => exact absurd h (by unfold matchPfxCI; simp)
    | cons c cs =>
      unfold matchPfxCI at h
      by_cases hb : (lowerC c == p) = true
      · rw [if_pos hb] at h
        obtain ⟨h1, h2⟩ := ih cs r h
        refine ⟨?_, ?_⟩
        · simp only [List.length_cons, List.take_succ_cons, lowerS, List.map_cons]
          rw [eq_of_beq hb]
          exact congrArg (p :: .) h1
        · simp only [List.length_cons, List.take_succ_cons, List.cons_append]
          exact congrArg (c :: .) h2
      · rw [if_neg hb] at h
        exact absurd h (by simp)

theorem scanScope_append (s r : Str) (hs : (')' : Char) ∉ s) :
    scanScope (s ++ ')' :: r) = some (s, r) := by
  induction s with
  | nil =>
    unfold scanScope
    simp
  | cons c cs ih =>
    have hc : ¬ c = ')' := fun h => hs (h ▸ List.mem_cons_self c cs)
    rw [List.cons_append]
    unfold scanScope
    rw [if_neg (by simpa using hc)]
    rw [ih (fun h => hs (List.mem_cons_of_mem c h))]
    rfl

theorem findSome?_unique {α β : Type} [DecidableEq α] (l : List α) (f : α → Option β)
    (a : α) (v : β) (ha : a ∈ l) (hv : f a = some v)
    (hothers : ∀ b ∈ l, b ≠ a → f b = none) :
    l.findSome? f = some v := by
  induction l with
  | nil => cases ha
  | cons x xs ih =>
    rw [List.findSome?_cons]
    by_cases hx : x = a
    · subst hx
      rw [hv]
    · rw [hothers x (List.mem_cons_self x xs) hx]
      have ha2 : a ∈ xs := by
        rcases List.mem_cons.mp ha with h | h
        · exact absurd h.symm hx
        · exact h
      exact ih ha2 (fun b hb => hothers b (List.mem_cons_of_mem x hb))

theorem lowerS_take_ctype (ty : Str) (hty : ty ∈ ctypes) (n : Nat) :
    lowerS (ty.take n) = ty.take n := by
  unfold lowerS
  rw [List.map_congr_left (fun c hc => ctypes_lower ty hty c (List.take_subset n ty hc))]
  exact List.map_id _

theorem parse_mkTitle (ty s subj : Str)
    (hty : ty ∈ ctypes) (hs0 : s ≠ []) (hsp : (')' : Char) ∉ s)
    (hsubj : subj ≠ []) (hst : jsTrim subj = subj)
    (hline : (subj.any (fun c => c == '\n' || c == '\r')) = false) :
    parseConventionalCommit (mkTitle ty s subj) = ⟨some ty, some s, subj⟩ := by
  obtain ⟨a0, t0, hsubj0⟩ : ∃ a0 t0, subj = a0 :: t0 := by
    cases subj with
    | nil => exact absurd rfl hsubj
    | cons a0 t0 => exact ⟨a0, t0, rfl⟩
  have hdropsubj : dropWs subj = subj := dropWs_eq_of_jsTrim hst
  have hdw : dropWs (' ' :: subj) = subj := by
    unfold dropWs
    rw [List.dropWhile_cons_of_pos (by decide)]
    exact hdropsubj
  have hlok : lineOk (' ' :: subj) = true := by
    unfold lineOk
    rw [hdw, hsubj0]
    rw [hsubj0] at hline
    simp [hline]
  have htrimsp : jsTrim (' ' :: subj) = subj := by
    unfold jsTrim
    rw [hdw]
    exact rdropWs_eq_of_jsTrim hst
  have hm : matchPfxCI ty (mkTitle ty s subj) =
      some ('(' :: (s ++ (')' :: ':' :: ' ' :: subj))) :=
    matchPfxCI_self ty _ (fun c hc => ctypes_lower ty hty c hc)
  have hAttempt : attemptType ty (mkTitle ty s subj) = some (ty, some s, subj) := by
    simp only [attemptType, hm]
    rw [scanScope_append s (':' :: ' ' :: subj) hsp]
    simp only [if_neg hs0]
    rw [hlok, htrimsp]
    simp
  have hNone : ∀ t2 ∈ ctypes, t2 ≠ ty → attemptType t2 (mkTitle ty s subj) = none := by
    intro t2 ht2 hne2
    cases hm2 : matchPfxCI t2 (mkTitle ty s subj) with
    | none => simp only [attemptType, hm2]
    | some r =>
      exfalso
      obtain ⟨hlow2, _⟩ := matchPfxCI_some t2 _ r hm2
      by_cases hlen : t2.length ≤ ty.length
      · have htk : (mkTitle ty s subj).take t2.length = ty.take t2.length := by
          unfold mkTitle
          exact List.take_append_of_le_length hlen
        rw [htk, lowerS_take_ctype ty hty] at hlow2
        exact hne2 (ctypes_noPfx t2 ht2 ty hty hlow2)
      · push_neg at hlen
        have htk : (mkTitle ty s subj).take t2.length =
            ty ++ ('(' :: (s ++ (')' :: ':' :: ' ' :: subj))).take (t2.length - ty.length) := by
          unfold mkTitle
          exact List.take_append_eq_append_take.trans (by rw [List.take_of_length_le (by omega)])
        have hparen : '(' ∈ t2 := by
          rw [htk] at hlow2
          have h1 : t2.length - ty.length = (t2.length - ty.length - 1) + 1 := by omega
          rw [h1, List.take_succ_cons] at hlow2
          rw [← hlow2]
          simp only [lowerS, List.map_append, List.map_cons]
          exact List.mem_append_right _ (List.mem_cons_self _ _)
        have := ctypes_letters t2 ht2 '(' hparen
        simp [isAsciiLetter, isAsciiUpper, isAsciiLower] at this
  have hfs : ctypes.findSome? (fun t => attemptType t (mkTitle ty s subj)) =
      some (ty, some s, subj) :=
    findSome?_unique ctypes _ ty _ hty hAttempt hNone
  unfold parseConventionalCommit
  rw [hfs]

/-- C9, amended: for every sanitize-stable well-formed produced title
`ty(s): subj` — type from the vocabulary, nonempty `)`-free scope, nonempty
trimmed newline-free subject — re-running the Title Synthesizer preserves
the type and the scope and prepends no second prefix: the parse recovers
exactly `(ty, s, subj)` (so nothing is re-inferred) and the output is the
single head `ty(s): ` followed by the processed original subject.  The
idempotence claim fails for degenerate productions with an empty subject,
see the counterexample. -/
theorem c9_theorem (ty s subj d2 ct2 : Str) (files2 : List Str)
    (hty : ty ∈ ctypes) (hs0 : s ≠ []) (hsp : (')' : Char) ∉ s)
    (hsubj : subj ≠ []) (hst : jsTrim subj = subj)
    (hline : (subj.any (fun c => c == '\n' || c == '\r')) = false)
    (hsan : sanitizeTitle (mkTitle ty s subj) = mkTitle ty s subj) :
    parseConventionalCommit (mkTitle ty s subj) = ⟨some ty, some s, subj⟩ ∧
    synthesizeTitle (mkTitle ty s subj) d2 files2 ct2 =
      mkPfx ty (some s) ++
        subjectPipeline (72 - (mkPfx ty (some s)).length) subj := by
  have hp := parse_mkTitle ty s subj hty hs0 hsp hsubj hst hline
  refine ⟨hp, ?_⟩
  unfold synthesizeTitle
  rw [hsan]
  unfold formatConventionalCommitTitle titleComponents
  rw [hp]
  simp

/-- C9 counterexample.  The synthesizer can produce `"feat(cache): "` (an
empty subject, e.g. from an empty sanitized AI title); re-running
sanitization and synthesis on that output does not re-parse (the subject
part of the regex requires a nonempty subject after trimming), so the type
and scope are re-inferred and the old prefix is embedded as the subject:
the result `"feat(cache): feat(cache):"` is double-prefixed. -/
theorem c9_counterexample :
    formatConventionalCommitTitle [] [] ["src/cache/a.ts".toList] [] =
      "feat(cache): ".toList ∧
    synthesizeTitle ("feat(cache): ".toList) [] ["src/cache/a.ts".toList] [] =
      "feat(cache): feat(cache):".toList ∧
    (parseConventionalCommit ("feat(cache): feat(cache):".toList)).subject =
      "feat(cache):".toList := by
  decide

/-- Witness for `c9_theorem` on the produced title
`feat(cache): add caching layer`. -/
theorem c9_witness :
    parseConventionalCommit
        (mkTitle ("feat".toList) ("cache".toList) ("add caching layer".toList)) =
      ⟨some ("feat".toList), some ("cache".toList), "add caching layer".toList⟩ ∧
    synthesizeTitle (mkTitle ("feat".toList) ("cache".toList) ("add caching layer".toList))
        [] [] [] =
      mkPfx ("feat".toList) (some ("cache".toList)) ++
        subjectPipeline (72 - (mkPfx ("feat".toList) (some ("cache".toList))).length)
          ("add caching layer".toList) :=
  c9_theorem ("feat".toList) ("cache".toList) ("add caching layer".toList) [] [] []
    (by decide) (by decide) (by decide) (by decide) (by decide) (by decide) (by decide)

end PRDesc
